import Mathlib

/-!
Verification development for the lunaris_api rendered-frame cache core:
the pixel-buffer / codec layer (src/render/image.rs) and the tiered cache
(src/render/cache.rs), shallowly embedded in Lean 4.

Modelling conventions:
- Machine integers are modelled as Nat; where an overflowing machine
  operation is observable (u32 / usize arithmetic), the wrap is written
  explicitly as a remainder by 2^32 or 2^64.  Rust's default release
  profile wraps on overflow, which is what these remainders model.
- Byte buffers are lists of Nat; a well-formed buffer has every element
  below 256.
- Fallible Rust functions returning Result are embedded as Except values;
  diagnostic message payloads carried by the error variants are abstracted
  away (claims only distinguish error variants).
- Real time is frozen: an access token records the number of milliseconds
  elapsed since its last touch at the modelled instant, so a whole
  rebalance pass is evaluated at one instant.
-/

namespace Lunaris

/-- Error taxonomy, from src/util/error.rs (variants relevant to the
rendered-frame cache core).  The FailedCompress and FailedDecompress
variants are used by src/render/image.rs but their declaration is not in
the sources under src/; they are modelled from the spec's error taxonomy
(spec section 7).  Diagnostic payloads are abstracted away. -/
inductive LunarisError where
  | Unknown : LunarisError
  | InvalidArgument : LunarisError
  | NotFound : LunarisError
  | AlreadyExists : LunarisError
  | Dimensionmismatch : LunarisError
  | FailedCompress : LunarisError
  | FailedDecompress : LunarisError
deriving DecidableEq, Repr

instance {ε α : Type} [DecidableEq ε] [DecidableEq α] : DecidableEq (Except ε α) := fun x y =>
  match x, y with
  | .ok a, .ok b =>
    if h : a = b then isTrue (h ▸ rfl) else isFalse fun hc => h (Except.ok.inj hc)
  | .error a, .error b =>
    if h : a = b then isTrue (h ▸ rfl) else isFalse fun hc => h (Except.error.inj hc)
  | .ok _, .error _ => isFalse Except.noConfusion
  | .error _, .ok _ => isFalse Except.noConfusion

/-- Pixel layouts, from src/render/image.rs (enum PixelFormat). -/
inductive PixelFormat where
  | Rgba8Unorm : PixelFormat
  | Rgba8UnormSrgb : PixelFormat
  | Gray8 : PixelFormat
deriving DecidableEq, Repr

/-- PixelFormat::bytes_per_pixel. -/
def PixelFormat.bytes_per_pixel : PixelFormat → Nat
  | .Rgba8Unorm => 4
  | .Rgba8UnormSrgb => 4
  | .Gray8 => 1

/-- The wgpu texture formats reachable from this code: the three formats
produced by PixelFormat::to_wgpu plus a representative of every other
device format (which PixelFormat::from_wgpu maps to none). -/
inductive TextureFormat where
  | Rgba8Unorm : TextureFormat
  | Rgba8UnormSrgb : TextureFormat
  | R8Unorm : TextureFormat
  | Bgra8Unorm : TextureFormat
deriving DecidableEq, Repr

/-- PixelFormat::to_wgpu. -/
def PixelFormat.to_wgpu : PixelFormat → TextureFormat
  | .Rgba8Unorm => .Rgba8Unorm
  | .Rgba8UnormSrgb => .Rgba8UnormSrgb
  | .Gray8 => .R8Unorm

/-- PixelFormat::from_wgpu (the catch-all arm returns none). -/
def PixelFormat.from_wgpu : TextureFormat → Option PixelFormat
  | .Rgba8Unorm => some .Rgba8Unorm
  | .Rgba8UnormSrgb => some .Rgba8UnormSrgb
  | .R8Unorm => some .Gray8
  | .Bgra8Unorm => none

/-- CPU-side image buffer with explicit format metadata
(struct RawImage in src/render/image.rs).  width and height are u32
values; data is the byte buffer. -/
structure RawImage where
  width : Nat
  height : Nat
  format : PixelFormat
  data : List Nat
deriving DecidableEq, Repr

/-- RawImage::from_bytes.  The expected length is computed in usize
arithmetic (width as usize * height as usize * bytes_per_pixel), which
wraps at 2^64. -/
def RawImage.from_bytes (format : PixelFormat) (width height : Nat)
    (bytes : List Nat) : Except LunarisError RawImage :=
  let expected := width * height * format.bytes_per_pixel % 2 ^ 64
  if bytes.length ≠ expected then
    .error .InvalidArgument
  else
    .ok { width := width, height := height, format := format, data := bytes }

/-- RawImage::zeroed. -/
def RawImage.zeroed (format : PixelFormat) (width height : Nat) : RawImage :=
  { width := width, height := height, format := format,
    data := List.replicate (width * height * format.bytes_per_pixel % 2 ^ 64) 0 }

/-- RawImage::as_bytes (the buffer itself). -/
def RawImage.as_bytes (img : RawImage) : List Nat := img.data

/-- RawImage::len. -/
def RawImage.byteLen (img : RawImage) : Nat := img.data.length

/-- RawImage::ensure_geometry. -/
def RawImage.ensure_geometry (a b : RawImage) : Except LunarisError Unit :=
  if a.width ≠ b.width ∨ a.height ≠ b.height then
    .error .Dimensionmismatch
  else if a.format ≠ b.format then
    .error .InvalidArgument
  else
    .ok ()

/-- u8::saturating_add on byte values. -/
def saturatingAdd (a b : Nat) : Nat := min (a + b) 255

/-- RawImage::overlay: per-byte saturating sum of two images with
identical geometry, rebuilt through from_bytes. -/
def RawImage.overlay (a b : RawImage) : Except LunarisError RawImage :=
  match a.ensure_geometry b with
  | .error e => .error e
  | .ok _ =>
    let data := (a.as_bytes.zip b.as_bytes).map fun p => saturatingAdd p.1 p.2
    RawImage.from_bytes a.format a.width a.height data

/-- The u32 wrap constant. -/
def u32Mod : Nat := 4294967296

/-- One (dy, dx) step of RawImage::size_down's inner accumulation loop:
skip the source pixel when it falls outside the image, otherwise add its
byte value (the flat index sy * width + sx is computed in u32 and wraps
at 2^32) and bump the contributor count. -/
def sizeDownStep (img : RawImage) (y x c : Nat) (sc : Nat × Nat)
    (d : Nat × Nat) : Nat × Nat :=
  let sy := y * 2 + d.1
  if img.height ≤ sy then sc
  else
    let sx := x * 2 + d.2
    if img.width ≤ sx then sc
    else
      let idx := (sy * img.width + sx) % u32Mod * img.format.bytes_per_pixel + c
      (sc.1 + img.data.getD idx 0, sc.2 + 1)

/-- The (sum, count) accumulated by RawImage::size_down for output pixel
(y, x), channel c: the dy/dx double loop in source order. -/
def sizeDownContrib (img : RawImage) (y x c : Nat) : Nat × Nat :=
  [(0, 0), (0, 1), (1, 0), (1, 1)].foldl (sizeDownStep img y x c) (0, 0)

/-- The byte stored by RawImage::size_down at output pixel (y, x),
channel c: sum / count.max(1), truncated to u8. -/
def sizeDownByte (img : RawImage) (y x c : Nat) : Nat :=
  let sc := sizeDownContrib img y x c
  sc.1 / max sc.2 1 % 256

/-- RawImage::size_down.  The output geometry is
width.max(1).div_ceil(2) by height.max(1).div_ceil(2); the output buffer
is written pixel by pixel in row-major channel-minor order, exactly the
order in which the source's triple loop writes out[(y*new_width+x)*bpp+c]
(the destination indices of the source enumerate the buffer positions
consecutively whenever new_width*new_height fits in u32; all theorems
below stay inside that region). -/
def RawImage.size_down (img : RawImage) : RawImage :=
  let bpp := img.format.bytes_per_pixel
  let nw := (max img.width 1 + 1) / 2
  let nh := (max img.height 1 + 1) / 2
  { width := nw, height := nh, format := img.format,
    data := (List.range nh).flatMap fun y =>
      (List.range nw).flatMap fun x =>
        (List.range bpp).map fun c => sizeDownByte img y x c }

/-- Compression strategies, from src/render/image.rs
(enum CompressionStrategy); the Zstd level is a u8. -/
inductive CompressionStrategy where
  | Raw : CompressionStrategy
  | Zstd : Nat → CompressionStrategy
  | Qoi : CompressionStrategy
  | Lz4 : CompressionStrategy
deriving DecidableEq, Repr

/-- Header of an encoded qoi stream: the geometry and channel count the
encoder wrote into the stream. -/
structure QoiHeader where
  width : Nat
  height : Nat
  channels : Nat
deriving DecidableEq, Repr

/-- Abstraction of the opaque compressed byte payload (Vec of u8 in the
source).  Every payload the repository ever constructs is the output of
exactly one of the four encoders, so the payload is modelled as the
information that encoder's matching decoder recovers from the bytes:
the codecs themselves are external crates (qoi, lz4_flex, zstd) and are
modelled from their documented lossless behaviour. -/
inductive Payload where
  | rawBytes : List Nat → Payload
  | qoiStream : QoiHeader → List Nat → Payload
  | lz4Block : List Nat → Payload
  | zstdStream : List Nat → Payload
deriving DecidableEq, Repr

/-- Pixel cap enforced by the qoi crate (QOI_PIXELS_MAX). -/
def qoiPixelsMax : Nat := 400000000

/-- Model of qoi::encode_to_vec from the qoi crate's documented
behaviour: fails on a zero-area or over-large image and unless the byte
length divides into exactly 3 or 4 channels per pixel; otherwise the
stream records the geometry, the channel count and (losslessly) the
pixel bytes. -/
def qoiEncode (data : List Nat) (width height : Nat) :
    Except LunarisError Payload :=
  if width = 0 ∨ height = 0 ∨ qoiPixelsMax < width * height then
    .error .FailedCompress
  else
    let channels := data.length / (width * height)
    if (channels = 3 ∨ channels = 4) ∧ data.length = width * height * channels then
      .ok (.qoiStream ⟨width, height, channels⟩ data)
    else
      .error .FailedCompress

/-- Compressed image, from src/render/image.rs (struct CompressedImage). -/
structure CompressedImage where
  width : Nat
  height : Nat
  format : PixelFormat
  codec : CompressionStrategy
  payload : Payload
deriving DecidableEq, Repr

/-- RawImage::compress.  Raw stores the bytes as-is; Qoi goes through the
qoi crate encoder (which can fail); Lz4 and Zstd are the lossless
general-purpose encoders (lz4_flex::block::compress_prepend_size and
zstd::encode_all, which accept any input at any level). -/
def RawImage.compress (img : RawImage) (strategy : CompressionStrategy) :
    Except LunarisError CompressedImage :=
  let mk := fun p => CompressedImage.mk img.width img.height img.format strategy p
  match strategy with
  | .Raw => .ok (mk (.rawBytes img.data))
  | .Qoi =>
    match qoiEncode img.data img.width img.height with
    | .ok p => .ok (mk p)
    | .error e => .error e
  | .Lz4 => .ok (mk (.lz4Block img.data))
  | .Zstd _ => .ok (mk (.zstdStream img.data))

/-- The codec dispatch inside CompressedImage::decompress: each codec
arm recovers the encoded bytes (a payload that is not a stream of the
tagged codec models a corrupt stream and fails with FailedDecompress);
the Qoi arm re-validates the decoded header against the metadata carried
alongside the payload. -/
def decodePayload (ci : CompressedImage) : Except LunarisError (List Nat) :=
  match ci.codec, ci.payload with
  | .Raw, .rawBytes data => .ok data
  | .Qoi, .qoiStream header data =>
    if header.width ≠ ci.width ∨ header.height ≠ ci.height then
      .error .InvalidArgument
    else if header.channels ≠ ci.format.bytes_per_pixel then
      .error .InvalidArgument
    else
      .ok data
  | .Lz4, .lz4Block data => .ok data
  | .Zstd _, .zstdStream data => .ok data
  | _, _ => .error .FailedDecompress

/-- CompressedImage::decompress: decode the payload, then check the
decoded byte length against the expected geometry/format product (usize
arithmetic) and rebuild the image through from_bytes. -/
def CompressedImage.decompress (ci : CompressedImage) :
    Except LunarisError RawImage :=
  let expected := ci.width * ci.height * ci.format.bytes_per_pixel % 2 ^ 64
  match decodePayload ci with
  | .error e => .error e
  | .ok data =>
    if data.length ≠ expected then .error .InvalidArgument
    else RawImage.from_bytes ci.format ci.width ci.height data

/-- Per-entry recency/frequency counter (struct AccessToken in
src/render/cache.rs).  sinceMs models the value of
last_touched.elapsed().as_millis() at the frozen modelled instant (a u32
cast of the millisecond count is applied where the source applies it);
freq models the u32 touched_freq counter. -/
structure AccessToken where
  sinceMs : Nat
  freq : Nat
deriving DecidableEq, Repr

/-- Snapshot of an access token (struct AccessTokenSnapshot): at the
frozen instant it records the same elapsed-time and frequency data. -/
structure AccessTokenSnapshot where
  sinceMs : Nat
  freq : Nat
deriving DecidableEq, Repr

/-- From, impl for AccessTokenSnapshot: load the token's fields. -/
def AccessTokenSnapshot.ofToken (t : AccessToken) : AccessTokenSnapshot :=
  { sinceMs := t.sinceMs, freq := t.freq }

/-- AccessTokenSnapshot::score: elapsed milliseconds (cast to u32) over
freq.max(1). -/
def AccessTokenSnapshot.score (s : AccessTokenSnapshot) : Nat :=
  s.sinceMs % u32Mod / max s.freq 1

/-- Ord, impl for AccessTokenSnapshot: compare by score, ties broken by
comparing freq. -/
def AccessTokenSnapshot.cmpSnap (a b : AccessTokenSnapshot) : Ordering :=
  (compare a.score b.score).then (compare a.freq b.freq)

/-- The texture payload held at the high tier.  GPU device state is not
embeddable, so a texture is modelled by the image whose bytes were
uploaded to it (RawImage::to_texture initialises the texture with exactly
the buffer bytes, and read_texture_into_raw reassembles exactly those
bytes after stripping row padding). -/
structure Texture where
  image : RawImage
deriving DecidableEq, Repr

/-- From RawImage for Texture (upload, impl From in src/render/image.rs). -/
def Texture.ofRawImage (img : RawImage) : Texture := ⟨img⟩

/-- From Texture for RawImage (readback via read_texture_into_raw). -/
def Texture.toRawImage (t : Texture) : RawImage := t.image

/-- An association list with unique keys models one DashMap tier keyed by
Entity (modelled as Nat). -/
abbrev TierMap (α : Type) : Type := List (Nat × α)

/-- DashMap::contains_key. -/
def mapContains {α : Type} (m : TierMap α) (k : Nat) : Bool :=
  m.any fun p => p.1 = k

/-- DashMap::remove (drop the entry with the given key). -/
def mapRemove {α : Type} (m : TierMap α) (k : Nat) : TierMap α :=
  m.filter fun p => p.1 ≠ k

/-- DashMap::insert (replace in place, or append a new entry). -/
def mapInsert {α : Type} (m : TierMap α) (k : Nat) (v : α) : TierMap α :=
  if mapContains m k then m.map fun p => if p.1 = k then (k, v) else p
  else m ++ [(k, v)]

/-- Lookup of the value stored under a key. -/
def mapFind {α : Type} (m : TierMap α) (k : Nat) : Option α :=
  (m.find? fun p => p.1 = k).map Prod.snd

/-- Tiered cache for fully rendered frames (struct TieredCache):
capacities (low, med, high) and the three tier stores. -/
structure TieredCache where
  capacity : Nat × Nat × Nat
  low : TierMap (AccessToken × CompressedImage)
  med : TierMap (AccessToken × RawImage)
  high : TierMap (AccessToken × Texture)
deriving DecidableEq, Repr

/-- The process-wide COMPRESSION_STRATEGY static: initialised to Qoi and
never written anywhere in the sources under src/, so demotions always
read Qoi. -/
def compressionStrategy : CompressionStrategy := .Qoi

/-- TieredCache::demote: low-resident entries are removed outright;
med-resident entries are removed, compressed with the global strategy
(an error is returned to the caller after the removal) and inserted into
low; high-resident entries are read back and inserted into med; an
entity in no tier yields NotFound.  The mutation of the cache and the
returned Result are modelled as a pair. -/
def TieredCache.demote (c : TieredCache) (e : Nat) :
    TieredCache × Except LunarisError Unit :=
  if mapContains c.low e then
    ({ c with low := mapRemove c.low e }, .ok ())
  else
    match mapFind c.med e with
    | some (tok, img) =>
      let c1 := { c with med := mapRemove c.med e }
      match img.compress compressionStrategy with
      | .ok ci => ({ c1 with low := mapInsert c1.low e (tok, ci) }, .ok ())
      | .error er => (c1, .error er)
    | none =>
      match mapFind c.high e with
      | some (tok, tex) =>
        ({ c with high := mapRemove c.high e,
                  med := mapInsert c.med e (tok, tex.toRawImage) }, .ok ())
      | none => (c, .error .NotFound)

/-- TieredCache::promote: low-resident entries are removed, decompressed
(an error is returned to the caller after the removal) and inserted into
med; med-resident entries are removed, uploaded and inserted into high;
an entity in neither low nor med yields NotFound. -/
def TieredCache.promote (c : TieredCache) (e : Nat) :
    TieredCache × Except LunarisError Unit :=
  match mapFind c.low e with
  | some (tok, ci) =>
    let c1 := { c with low := mapRemove c.low e }
    match ci.decompress with
    | .ok img => ({ c1 with med := mapInsert c1.med e (tok, img) }, .ok ())
    | .error er => (c1, .error er)
  | none =>
    match mapFind c.med e with
    | some (tok, img) =>
      ({ c with med := mapRemove c.med e,
                high := mapInsert c.high e (tok, Texture.ofRawImage img) }, .ok ())
    | none => (c, .error .NotFound)

/-- Iterator::max_by over (entity, snapshot) pairs comparing the
snapshots: the last of several equally maximal elements is returned
(Rust's documented max_by semantics). -/
def maxBySnd (l : List (Nat × AccessTokenSnapshot)) :
    Option (Nat × AccessTokenSnapshot) :=
  l.foldl
    (fun acc x =>
      match acc with
      | none => some x
      | some a => if a.2.cmpSnap x.2 = .gt then some a else some x)
    none

/-- Iterator::min_by over (entity, snapshot) pairs comparing the
snapshots: the first of several equally minimal elements is returned
(Rust's documented min_by semantics). -/
def minBySnd (l : List (Nat × AccessTokenSnapshot)) :
    Option (Nat × AccessTokenSnapshot) :=
  l.foldl
    (fun acc x =>
      match acc with
      | none => some x
      | some a => if a.2.cmpSnap x.2 = .gt then some x else some a)
    none

/-- The (entity, snapshot) pairs collected from one tier at the top of an
update() iteration. -/
def tierSnapshot {α : Type} (m : TierMap (AccessToken × α)) :
    List (Nat × AccessTokenSnapshot) :=
  m.map fun p => (p.1, AccessTokenSnapshot.ofToken p.2.1)

/-- One iteration of TieredCache::update's loop: take the three
snapshots, then evaluate the priority rules top to bottom — drain an
overflowing high, med then low tier by demoting its worst-scoring entry,
otherwise fill an underfull high then med tier by promoting the hottest
entry below it.  Returns the new cache and either the first error of the
demote/promote step or the changed flag. -/
def TieredCache.updateStep (c : TieredCache) :
    TieredCache × Except LunarisError Bool :=
  let lowCap := c.capacity.1
  let medCap := c.capacity.2.1
  let highCap := c.capacity.2.2
  let highSnap := tierSnapshot c.high
  let medSnap := tierSnapshot c.med
  let lowSnap := tierSnapshot c.low
  if highCap < c.high.length then
    match maxBySnd highSnap with
    | some (e, _) =>
      let r := c.demote e
      (r.1, r.2.map fun _ => true)
    | none => (c, .ok false)
  else if medCap < c.med.length then
    match maxBySnd medSnap with
    | some (e, _) =>
      let r := c.demote e
      (r.1, r.2.map fun _ => true)
    | none => (c, .ok false)
  else if lowCap < c.low.length then
    match maxBySnd lowSnap with
    | some (e, _) =>
      let r := c.demote e
      (r.1, r.2.map fun _ => true)
    | none => (c, .ok false)
  else if c.high.length < highCap then
    match minBySnd medSnap with
    | some (e, _) =>
      let r := c.promote e
      (r.1, r.2.map fun _ => true)
    | none => (c, .ok false)
  else if c.med.length < medCap then
    match minBySnd lowSnap with
    | some (e, _) =>
      let r := c.promote e
      (r.1, r.2.map fun _ => true)
    | none => (c, .ok false)
  else (c, .ok false)

/-- Outcome of a bounded run of TieredCache::update's loop: the source
loop either converges (a full pass makes no change and update returns
Ok), or propagates the first demote/promote error; outOfFuel marks runs
whose modelled iteration budget was exhausted first. -/
inductive UpdateOutcome where
  | converged : UpdateOutcome
  | failed : LunarisError → UpdateOutcome
  | outOfFuel : UpdateOutcome
deriving DecidableEq, Repr

/-- TieredCache::update, with an explicit iteration budget standing in
for the source's unbounded loop. -/
def TieredCache.update (fuel : Nat) (c : TieredCache) :
    TieredCache × UpdateOutcome :=
  match fuel with
  | 0 => (c, .outOfFuel)
  | fuel + 1 =>
    match c.updateStep with
    | (c1, .error e) => (c1, .failed e)
    | (c1, .ok true) => TieredCache.update fuel c1
    | (c1, .ok false) => (c1, .converged)

/-- Modelled from the spec: frame insertion is not implemented in the
sources under src/ (spec section 6 receives completed frames as an
(entity_id, PixelBuffer) pair placed at the initial tier, typically med,
and the data-model invariant of section 3 forbids an id from occupying
two tiers), so inserting a frame stores it in med under a fresh access
token and displaces any entry the cache already holds for that id. -/
def TieredCache.insertFrame (c : TieredCache) (e : Nat) (img : RawImage) :
    TieredCache :=
  { c with low := mapRemove c.low e,
           med := mapInsert (mapRemove c.med e) e (AccessToken.mk 0 0, img),
           high := mapRemove c.high e }

/-- The cache operations a host can drive the cache with. -/
inductive CacheOp where
  | ins : Nat → RawImage → CacheOp
  | promoteOp : Nat → CacheOp
  | demoteOp : Nat → CacheOp
  | updateOp : Nat → CacheOp
deriving DecidableEq, Repr

/-- Apply one cache operation, keeping the resulting cache state (the
accompanying Result is returned to the caller and does not affect the
state kept by the cache). -/
def applyOp (c : TieredCache) : CacheOp → TieredCache
  | .ins e img => c.insertFrame e img
  | .promoteOp e => (c.promote e).1
  | .demoteOp e => (c.demote e).1
  | .updateOp fuel => (TieredCache.update fuel c).1

/-- Apply a sequence of cache operations. -/
def applyOps (c : TieredCache) (ops : List CacheOp) : TieredCache :=
  ops.foldl applyOp c

/-- The number of tiers currently holding an entity id. -/
def TieredCache.tierCount (c : TieredCache) (e : Nat) : Nat :=
  (if mapContains c.low e then 1 else 0) +
    (if mapContains c.med e then 1 else 0) +
    (if mapContains c.high e then 1 else 0)

/-- The spec's entity invariant: every id occupies at most one tier. -/
def TieredCache.atMostOneTier (c : TieredCache) : Prop :=
  ∀ e : Nat, c.tierCount e ≤ 1

/-- Executable form of the entity invariant. -/
def TieredCache.atMostOneTierB (c : TieredCache) : Bool :=
  (c.low.all fun p => !mapContains c.med p.1 && !mapContains c.high p.1) &&
    (c.med.all fun p => !mapContains c.high p.1)

/-- The source pixels that exist among the up-to-4 neighbours
(2y, 2x), (2y, 2x+1), (2y+1, 2x), (2y+1, 2x+1) of output pixel (y, x);
written from the claim's words for the refinement comparison with
RawImage.size_down. -/
def neighborPixels (img : RawImage) (y x : Nat) : List (Nat × Nat) :=
  ([((0 : Nat), (0 : Nat)), (0, 1), (1, 0), (1, 1)].map fun d =>
      (y * 2 + d.1, x * 2 + d.2)).filter
    fun p => p.1 < img.height ∧ p.2 < img.width

/-- The claim's output byte: the unweighted integer average of the
contributing source pixels, the divisor being the real contributing
count.  Written from the claim's words. -/
def specByteVal (img : RawImage) (y x c : Nat) : Nat :=
  let ps := neighborPixels img y x
  (ps.map fun p =>
      img.data.getD ((p.1 * img.width + p.2) * img.format.bytes_per_pixel + c) 0).sum
    / ps.length

/-- The claim's size_down: a ceil(width/2) by ceil(height/2) buffer in
the same format whose pixels are the box averages of the existing source
neighbours.  Written from the claim's words for the refinement
comparison with RawImage.size_down. -/
def sizeDownSpec (img : RawImage) : RawImage :=
  let bpp := img.format.bytes_per_pixel
  let nw := (img.width + 1) / 2
  let nh := (img.height + 1) / 2
  { width := nw, height := nh, format := img.format,
    data := (List.range nh).flatMap fun y =>
      (List.range nw).flatMap fun x =>
        (List.range bpp).map fun c => specByteVal img y x c }

/-- The buffer-length invariant of the data model: the byte buffer's
length matches geometry times format (the product being the usize value
the source computes). -/
def RawImage.lenInvariant (img : RawImage) : Prop :=
  img.as_bytes.length = img.width * img.height * img.format.bytes_per_pixel % 2 ^ 64

/-- A 1 by 1 linear-RGBA test image. -/
def img1 : RawImage := { width := 1, height := 1, format := .Rgba8Unorm, data := [1, 2, 3, 4] }

/-- A 1 by 1 grayscale test image. -/
def gimg : RawImage := { width := 1, height := 1, format := .Gray8, data := [7] }

/-- The spec's 3 by 3 grayscale size_down example buffer. -/
def g33 : RawImage :=
  { width := 3, height := 3, format := .Gray8,
    data := [10, 20, 30, 40, 50, 60, 70, 80, 90] }

/-- A store-as-is compressed payload for the grayscale test image. -/
def rawci : CompressedImage :=
  { width := 1, height := 1, format := .Gray8, codec := .Raw, payload := .rawBytes [7] }

/-- The spec's rebalance-convergence setup: capacities (1, 1, 1) and
three entities freshly inserted into med. -/
def demoCache : TieredCache :=
  { capacity := (1, 1, 1), low := [],
    med := [(0, ⟨0, 0⟩, img1), (1, ⟨0, 0⟩, img1), (2, ⟨0, 0⟩, img1)],
    high := [] }

/-- A cache holding one entity in the low tier. -/
def c4cache : TieredCache :=
  { capacity := (2, 2, 2), low := [(3, ⟨0, 0⟩, rawci)], med := [], high := [] }

/-- A cache holding one grayscale image in the med tier (the default Qoi
demotion codec cannot encode one-channel data). -/
def c5cache : TieredCache :=
  { capacity := (2, 2, 2), low := [], med := [(5, ⟨0, 0⟩, gimg)], high := [] }

/-- A cache holding one entity in the high tier only. -/
def c6cache : TieredCache :=
  { capacity := (2, 2, 2), low := [], med := [],
    high := [(9, ⟨0, 0⟩, ⟨gimg⟩)] }

/-- A demonstration operation sequence mixing insertions, promotions,
demotions and a rebalance. -/
def demoOps : List CacheOp :=
  [.ins 1 img1, .ins 2 gimg, .promoteOp 1, .demoteOp 2, .updateOp 5]

/-- The empty cache with capacities (2, 2, 2). -/
def emptyCache : TieredCache :=
  { capacity := (2, 2, 2), low := [], med := [], high := [] }

lemma contains_iff_mem {α : Type} (m : TierMap α) (k : Nat) :
    mapContains m k = true ↔ ∃ v, (k, v) ∈ m := by
  simp only [mapContains, List.any_eq_true, decide_eq_true_eq]
  constructor
  · rintro ⟨⟨k1, v⟩, hmem, hk⟩
    exact ⟨v, by simpa [show k1 = k from hk] using hmem⟩
  · rintro ⟨v, hmem⟩
    exact ⟨(k, v), hmem, rfl⟩

lemma contains_remove {α : Type} (m : TierMap α) (k k' : Nat) :
    mapContains (mapRemove m k) k' = if k' = k then false else mapContains m k' := by
  by_cases hk : k' = k
  · subst hk
    simp only [if_pos rfl]
    apply List.any_eq_false.mpr
    intro p hp
    have := List.of_mem_filter hp
    simpa using this
  · rw [if_neg hk, Bool.eq_iff_iff]
    simp only [mapContains, mapRemove, List.any_eq_true]
    constructor
    · rintro ⟨p, hp, h⟩
      exact ⟨p, List.mem_of_mem_filter hp, h⟩
    · rintro ⟨p, hp, h⟩
      refine ⟨p, List.mem_filter.mpr ⟨hp, ?_⟩, h⟩
      have hpk : p.1 = k' := by simpa using h
      simpa using fun hc => hk (hpk.symm.trans hc)

lemma contains_insert {α : Type} (m : TierMap α) (k k' : Nat) (v : α) :
    mapContains (mapInsert m k v) k' = if k' = k then true else mapContains m k' := by
  by_cases hin : mapContains m k = true
  · rw [mapInsert, if_pos hin]
    by_cases hk : k' = k
    · subst hk
      rw [if_pos rfl]
      obtain ⟨w, hw⟩ := (contains_iff_mem m k').mp hin
      apply (contains_iff_mem _ k').mpr
      exact ⟨v, by
        refine List.mem_map.mpr ⟨(k', w), hw, ?_⟩
        simp⟩
    · rw [if_neg hk, Bool.eq_iff_iff]
      simp only [mapContains, List.any_eq_true]
      constructor
      · rintro ⟨q, hq, h⟩
        obtain ⟨p, hp, hfp⟩ := List.mem_map.mp hq
        by_cases hpk : p.1 = k
        · exfalso
          rw [if_pos hpk] at hfp
          apply hk
          have : q.1 = k' := by simpa using h
          rw [← hfp] at this
          exact this.symm
        · rw [if_neg hpk] at hfp
          exact ⟨p, hp, by simpa [hfp] using h⟩
      · rintro ⟨p, hp, h⟩
        have hpk : p.1 = k' := by simpa using h
        refine ⟨p, List.mem_map.mpr ⟨p, hp, ?_⟩, h⟩
        rw [if_neg]
        intro hc
        exact hk (hpk.symm.trans hc)
  · rw [mapInsert, if_neg hin]
    by_cases hk : k' = k
    · subst hk
      simp [mapContains]
    · rw [if_neg hk]
      simp only [mapContains, List.any_append, List.any_cons, List.any_nil]
      have : (decide (k = k')) = false := by
        simpa using fun hc => hk hc.symm
      simp [this]

lemma find_eq_none_iff {α : Type} (m : TierMap α) (k : Nat) :
    mapFind m k = none ↔ mapContains m k = false := by
  constructor
  · intro h
    apply List.any_eq_false.mpr
    intro p hp
    simp only [mapFind] at h
    rcases hf : m.find? (fun p => decide (p.1 = k)) with _ | q
    · have := List.find?_eq_none.mp hf p hp
      simpa using this
    · rw [hf] at h
      simp at h
  · intro h
    simp only [mapFind, Option.map_eq_none']
    apply List.find?_eq_none.mpr
    intro p hp
    have := List.any_eq_false.mp h p hp
    simpa using this

lemma find_isSome_of_contains {α : Type} (m : TierMap α) (k : Nat)
    (h : mapContains m k = true) : ∃ v, mapFind m k = some v := by
  rcases ho : mapFind m k with _ | v
  · rw [find_eq_none_iff] at ho
    simp [h] at ho
  · exact ⟨v, rfl⟩

/-- Claim C10: the logical pixel-format enumeration and the device
texture formats round-trip: from_wgpu (to_wgpu f) recovers f for every
PixelFormat f. -/
theorem pixelformat_wgpu_roundtrip :
    ∀ f : PixelFormat, PixelFormat.from_wgpu f.to_wgpu = some f := by
  intro f
  cases f <;> rfl

/-- Claim C1, counterexample: two entries with equal scores (20 ms at
frequency 2 and 10 ms at frequency 1 both score 10); the ranked
max-selection used for demotion selects the higher-frequency entry, and
the min-selection used for promotion prefers the lower-frequency entry —
the opposite of the claimed "keep hot" tie-break. -/
theorem tiebreak_selects_high_freq :
    (AccessTokenSnapshot.mk 20 2).score = (AccessTokenSnapshot.mk 10 1).score ∧
      maxBySnd [(0, AccessTokenSnapshot.mk 20 2), (1, AccessTokenSnapshot.mk 10 1)] =
        some (0, AccessTokenSnapshot.mk 20 2) ∧
      minBySnd [(0, AccessTokenSnapshot.mk 20 2), (1, AccessTokenSnapshot.mk 10 1)] =
        some (1, AccessTokenSnapshot.mk 10 1) := by
  exact ⟨rfl, rfl, rfl⟩

/-- Claim C1, amended: entries are compared by score with equal scores
broken by touch frequency, but the higher frequency orders the entry as
greater: among two equal-score entries the higher-frequency one is the
one selected for demotion by max-selection, and the lower-frequency one
is the one preferred for promotion by min-selection. -/
theorem tiebreak_orders_by_freq (a b : AccessTokenSnapshot)
    (hscore : a.score = b.score) (hfreq : b.freq < a.freq) :
    a.cmpSnap b = .gt ∧ b.cmpSnap a = .lt ∧
      ∀ e1 e2 : Nat,
        maxBySnd [(e1, a), (e2, b)] = some (e1, a) ∧
          minBySnd [(e1, a), (e2, b)] = some (e2, b) := by
  have hgt : a.cmpSnap b = .gt := by
    simp only [AccessTokenSnapshot.cmpSnap, hscore, Nat.compare_eq_eq.mpr rfl,
      Ordering.then]
    exact Nat.compare_eq_gt.mpr hfreq
  have hlt : b.cmpSnap a = .lt := by
    simp only [AccessTokenSnapshot.cmpSnap, hscore, Nat.compare_eq_eq.mpr rfl,
      Ordering.then]
    exact Nat.compare_eq_lt.mpr hfreq
  refine ⟨hgt, hlt, fun e1 e2 => ⟨?_, ?_⟩⟩
  · simp [maxBySnd, hgt]
  · simp [minBySnd, hgt]

/-- Claim C1 witness: the amended tie-break at the concrete equal-score
pair (20 ms, frequency 2) versus (10 ms, frequency 1). -/
theorem tiebreak_orders_by_freq_witness :
    (AccessTokenSnapshot.mk 20 2).cmpSnap (AccessTokenSnapshot.mk 10 1) = .gt ∧
      (AccessTokenSnapshot.mk 10 1).cmpSnap (AccessTokenSnapshot.mk 20 2) = .lt ∧
      ∀ e1 e2 : Nat,
        maxBySnd [(e1, AccessTokenSnapshot.mk 20 2), (e2, AccessTokenSnapshot.mk 10 1)] =
            some (e1, AccessTokenSnapshot.mk 20 2) ∧
          minBySnd [(e1, AccessTokenSnapshot.mk 20 2), (e2, AccessTokenSnapshot.mk 10 1)] =
            some (e2, AccessTokenSnapshot.mk 10 1) :=
  tiebreak_orders_by_freq (AccessTokenSnapshot.mk 20 2) (AccessTokenSnapshot.mk 10 1)
    (by decide) (by decide)

lemma find_some_contains {α : Type} {m : TierMap α} {k : Nat} {v : α}
    (h : mapFind m k = some v) : mapContains m k = true := by
  by_contra hc
  rw [Bool.not_eq_true] at hc
  rw [(find_eq_none_iff m k).mpr hc] at h
  exact Option.noConfusion h

lemma qoiEncode_error_classify {d : List Nat} {w h : Nat} {e : LunarisError}
    (hq : qoiEncode d w h = .error e) : e = .FailedCompress := by
  simp only [qoiEncode] at hq
  split at hq
  · exact (Except.error.inj hq).symm
  · split at hq
    · exact Except.noConfusion hq
    · exact (Except.error.inj hq).symm

lemma compress_error_classify {img : RawImage} {s : CompressionStrategy}
    {e : LunarisError} (h : img.compress s = .error e) : e = .FailedCompress := by
  simp only [RawImage.compress] at h
  cases s with
  | Raw => exact Except.noConfusion h
  | Lz4 => exact Except.noConfusion h
  | Zstd lvl => exact Except.noConfusion h
  | Qoi =>
    rcases hq : qoiEncode img.data img.width img.height with er | p
    · rw [hq] at h
      rw [← Except.error.inj h]
      exact qoiEncode_error_classify hq
    · rw [hq] at h
      exact Except.noConfusion h

lemma from_bytes_error_classify {f : PixelFormat} {w h : Nat} {b : List Nat}
    {e : LunarisError} (he : RawImage.from_bytes f w h b = .error e) :
    e = .InvalidArgument := by
  simp only [RawImage.from_bytes] at he
  split at he
  · exact (Except.error.inj he).symm
  · exact Except.noConfusion he

lemma decodePayload_error_classify {ci : CompressedImage} {e : LunarisError}
    (h : decodePayload ci = .error e) :
    e = .FailedDecompress ∨ e = .InvalidArgument := by
  simp only [decodePayload] at h
  split at h
  · exact Except.noConfusion h
  · split at h
    · exact Or.inr (Except.error.inj h).symm
    · split at h
      · exact Or.inr (Except.error.inj h).symm
      · exact Except.noConfusion h
  · exact Except.noConfusion h
  · exact Except.noConfusion h
  · exact Or.inl (Except.error.inj h).symm

lemma decompress_eq_of_decode_err {ci : CompressedImage} {er : LunarisError}
    (hd : decodePayload ci = .error er) : ci.decompress = .error er := by
  simp only [CompressedImage.decompress, hd]

lemma decompress_eq_of_decode_ok {ci : CompressedImage} {data : List Nat}
    (hd : decodePayload ci = .ok data) :
    ci.decompress =
      if data.length ≠ ci.width * ci.height * ci.format.bytes_per_pixel % 2 ^ 64 then
        .error .InvalidArgument
      else RawImage.from_bytes ci.format ci.width ci.height data := by
  simp only [CompressedImage.decompress, hd]

lemma decompress_error_classify {ci : CompressedImage} {e : LunarisError}
    (h : ci.decompress = .error e) :
    e = .FailedDecompress ∨ e = .InvalidArgument := by
  rcases hd : decodePayload ci with er | data
  · rw [decompress_eq_of_decode_err hd] at h
    rw [← Except.error.inj h]
    exact decodePayload_error_classify hd
  · rw [decompress_eq_of_decode_ok hd] at h
    split at h
    · exact Or.inr (Except.error.inj h).symm
    · exact Or.inr (from_bytes_error_classify h)

lemma demote_eq_low {c : TieredCache} {e : Nat}
    (h : mapContains c.low e = true) :
    c.demote e = ({ c with low := mapRemove c.low e }, .ok ()) := by
  simp only [TieredCache.demote, h, if_true]

lemma demote_eq_med_ok {c : TieredCache} {e : Nat} {tok : AccessToken}
    {img : RawImage} {ci : CompressedImage}
    (hl : mapContains c.low e = false) (hm : mapFind c.med e = some (tok, img))
    (hc : img.compress compressionStrategy = .ok ci) :
    c.demote e =
      (⟨c.capacity, mapInsert c.low e (tok, ci), mapRemove c.med e, c.high⟩, .ok ()) := by
  simp only [TieredCache.demote, hl, hm, hc, Bool.false_eq_true, if_false]

lemma demote_eq_med_err {c : TieredCache} {e : Nat} {tok : AccessToken}
    {img : RawImage} {er : LunarisError}
    (hl : mapContains c.low e = false) (hm : mapFind c.med e = some (tok, img))
    (hc : img.compress compressionStrategy = .error er) :
    c.demote e = (⟨c.capacity, c.low, mapRemove c.med e, c.high⟩, .error er) := by
  simp only [TieredCache.demote, hl, hm, hc, Bool.false_eq_true, if_false]

lemma demote_eq_high {c : TieredCache} {e : Nat} {tok : AccessToken} {tex : Texture}
    (hl : mapContains c.low e = false) (hm : mapFind c.med e = none)
    (hh : mapFind c.high e = some (tok, tex)) :
    c.demote e =
      (⟨c.capacity, c.low, mapInsert c.med e (tok, tex.toRawImage),
        mapRemove c.high e⟩, .ok ()) := by
  simp only [TieredCache.demote, hl, hm, hh, Bool.false_eq_true, if_false]

lemma demote_eq_absent {c : TieredCache} {e : Nat}
    (hl : mapContains c.low e = false) (hm : mapFind c.med e = none)
    (hh : mapFind c.high e = none) :
    c.demote e = (c, .error .NotFound) := by
  simp only [TieredCache.demote, hl, hm, hh, Bool.false_eq_true, if_false]

lemma promote_eq_low_ok {c : TieredCache} {e : Nat} {tok : AccessToken}
    {ci : CompressedImage} {img : RawImage}
    (hl : mapFind c.low e = some (tok, ci)) (hd : ci.decompress = .ok img) :
    c.promote e =
      (⟨c.capacity, mapRemove c.low e, mapInsert c.med e (tok, img), c.high⟩, .ok ()) := by
  simp only [TieredCache.promote, hl, hd]

lemma promote_eq_low_err {c : TieredCache} {e : Nat} {tok : AccessToken}
    {ci : CompressedImage} {er : LunarisError}
    (hl : mapFind c.low e = some (tok, ci)) (hd : ci.decompress = .error er) :
    c.promote e = (⟨c.capacity, mapRemove c.low e, c.med, c.high⟩, .error er) := by
  simp only [TieredCache.promote, hl, hd]

lemma promote_eq_med {c : TieredCache} {e : Nat} {tok : AccessToken} {img : RawImage}
    (hl : mapFind c.low e = none) (hm : mapFind c.med e = some (tok, img)) :
    c.promote e =
      (⟨c.capacity, c.low, mapRemove c.med e,
        mapInsert c.high e (tok, Texture.ofRawImage img)⟩, .ok ()) := by
  simp only [TieredCache.promote, hl, hm]

lemma promote_eq_absent {c : TieredCache} {e : Nat}
    (hl : mapFind c.low e = none) (hm : mapFind c.med e = none) :
    c.promote e = (c, .error .NotFound) := by
  simp only [TieredCache.promote, hl, hm]

/-- Claim C4, counterexample: demoting an entity resident in the low
tier removes it from the cache entirely (no tier holds it afterwards)
and reports success, rather than leaving it in place. -/
theorem demote_low_removes_entry :
    mapContains c4cache.low 3 = true ∧ (c4cache.demote 3).2 = .ok () ∧
      (c4cache.demote 3).1.tierCount 3 = 0 := by
  decide

/-- Claim C4, amended: demote(id) performs high to med and med to low,
and additionally low to absent: demoting an entity resident in the low
tier removes it from the cache outright (returning Ok), leaving the med
and high tiers untouched. -/
theorem demote_low_evicts (c : TieredCache) (e : Nat)
    (h : mapContains c.low e = true) :
    c.demote e = ({ c with low := mapRemove c.low e }, .ok ()) ∧
      mapContains (c.demote e).1.low e = false ∧
      (c.demote e).1.med = c.med ∧ (c.demote e).1.high = c.high := by
  have hd := demote_eq_low h
  refine ⟨hd, ?_, by rw [hd], by rw [hd]⟩
  rw [hd]
  simp [contains_remove]

/-- Claim C4 witness: the amended demote-on-low behaviour at the
concrete cache holding entity 3 in low. -/
theorem demote_low_evicts_witness :
    c4cache.demote 3 = ({ c4cache with low := mapRemove c4cache.low 3 }, .ok ()) ∧
      mapContains (c4cache.demote 3).1.low 3 = false ∧
      (c4cache.demote 3).1.med = c4cache.med ∧
      (c4cache.demote 3).1.high = c4cache.high :=
  demote_low_evicts c4cache 3 (by decide)

/-- Claim C6, counterexample: an entity resident in the high tier is
present in some tier, yet promote on it returns NotFound (promote only
inspects the low and med tiers). -/
theorem promote_high_notfound :
    mapContains c6cache.high 9 = true ∧
      (c6cache.promote 9).2 = .error .NotFound := by
  decide

/-- Claim C6, amended: demote(id) returns NotFound exactly when the
entity is absent from all three tiers, while promote(id) returns
NotFound exactly when the entity is absent from low and med — promote on
an entity resident only in high returns NotFound. -/
theorem notfound_iff_absent (c : TieredCache) (e : Nat) :
    ((c.demote e).2 = .error .NotFound ↔
      mapContains c.low e = false ∧ mapContains c.med e = false ∧
        mapContains c.high e = false) ∧
    ((c.promote e).2 = .error .NotFound ↔
      mapContains c.low e = false ∧ mapContains c.med e = false) := by
  constructor
  · constructor
    · intro h
      rcases hlb : mapContains c.low e with _ | _
      · rcases hm : mapFind c.med e with _ | ⟨tok, img⟩
        · rcases hh : mapFind c.high e with _ | ⟨tok, tex⟩
          · exact ⟨rfl, (find_eq_none_iff _ _).mp hm, (find_eq_none_iff _ _).mp hh⟩
          · rw [demote_eq_high hlb hm hh] at h
            exact Except.noConfusion h
        · rcases hc : img.compress compressionStrategy with er | ci
          · rw [demote_eq_med_err hlb hm hc] at h
            simp only [Except.error.injEq] at h
            rw [compress_error_classify hc] at h
            exact LunarisError.noConfusion h
          · rw [demote_eq_med_ok hlb hm hc] at h
            exact Except.noConfusion h
      · rw [demote_eq_low hlb] at h
        exact Except.noConfusion h
    · rintro ⟨hl, hm, hh⟩
      rw [demote_eq_absent hl ((find_eq_none_iff _ _).mpr hm)
        ((find_eq_none_iff _ _).mpr hh)]
  · constructor
    · intro h
      rcases hl : mapFind c.low e with _ | ⟨tok, ci⟩
      · rcases hm : mapFind c.med e with _ | ⟨tok, img⟩
        · exact ⟨(find_eq_none_iff _ _).mp hl, (find_eq_none_iff _ _).mp hm⟩
        · rw [promote_eq_med hl hm] at h
          exact Except.noConfusion h
      · rcases hd : ci.decompress with er | img
        · rw [promote_eq_low_err hl hd] at h
          simp only [Except.error.injEq] at h
          rcases decompress_error_classify hd with he | he <;>
            · rw [he] at h
              exact LunarisError.noConfusion h
        · rw [promote_eq_low_ok hl hd] at h
          exact Except.noConfusion h
    · rintro ⟨hl, hm⟩
      rw [promote_eq_absent ((find_eq_none_iff _ _).mpr hl)
        ((find_eq_none_iff _ _).mpr hm)]

lemma atMostOne_of_bool (c : TieredCache) (h : c.atMostOneTierB = true) :
    c.atMostOneTier := by
  intro e
  rw [TieredCache.atMostOneTierB, Bool.and_eq_true] at h
  obtain ⟨h1, h2⟩ := h
  rw [List.all_eq_true] at h1 h2
  unfold TieredCache.tierCount
  rcases hl : mapContains c.low e with _ | _
  · rcases hm : mapContains c.med e with _ | _
    · rcases hh : mapContains c.high e with _ | _ <;> simp
    · obtain ⟨v, hv⟩ := (contains_iff_mem _ _).mp hm
      have hhigh := h2 (e, v) hv
      simp only [Bool.not_eq_true'] at hhigh
      simp [hhigh]
  · obtain ⟨v, hv⟩ := (contains_iff_mem _ _).mp hl
    have hrest := h1 (e, v) hv
    rw [Bool.and_eq_true] at hrest
    obtain ⟨hm2, hh2⟩ := hrest
    simp only [Bool.not_eq_true'] at hm2 hh2
    simp [hm2, hh2]

/-- Claim C5, counterexample: a grayscale image resident in med, demoted
under the default Qoi strategy: compression fails (Qoi encodes only 3- or
4-channel data), demote returns the error, and the entity is no longer
present in any tier — the entry is lost rather than the state being
unchanged. -/
theorem demote_compress_error_loses :
    mapContains c5cache.med 5 = true ∧
      (c5cache.demote 5).2 = .error .FailedCompress ∧
      (c5cache.demote 5).1.tierCount 5 = 0 := by
  decide

/-- Claim C5, amended: when promote or demote returns an error on an
entity that was present, the entry is lost, not preserved: the only
error on a present entity arises from the codec conversion (med to low
compression, low to med decompression), and it strikes after the source
tier removal, so the entity is afterwards present in no tier; the state
is unchanged only for the NotFound error on an absent entity. -/
theorem promote_demote_error_state (c : TieredCache) (e : Nat)
    (hinv : c.atMostOneTier) :
    (∀ c' er, c.demote e = (c', .error er) →
      (er = .NotFound ∧ c' = c) ∨
        (mapContains c.med e = true ∧ c'.tierCount e = 0)) ∧
    (∀ c' er, c.promote e = (c', .error er) →
      (er = .NotFound ∧ c' = c) ∨
        (mapContains c.low e = true ∧ c'.tierCount e = 0)) := by
  constructor
  · intro c' er h
    rcases hlb : mapContains c.low e with _ | _
    · rcases hm : mapFind c.med e with _ | ⟨tok, img⟩
      · rcases hh : mapFind c.high e with _ | ⟨tok, tex⟩
        · rw [demote_eq_absent hlb hm hh] at h
          have hA : c = c' := congrArg Prod.fst h
          have hB : Except.error (ε := LunarisError) .NotFound = .error er :=
            congrArg Prod.snd h
          exact Or.inl ⟨(Except.error.inj hB).symm, hA.symm⟩
        · rw [demote_eq_high hlb hm hh] at h
          exact Except.noConfusion (congrArg Prod.snd h)
      · rcases hc : img.compress compressionStrategy with er2 | ci
        · rw [demote_eq_med_err hlb hm hc] at h
          have hA : (⟨c.capacity, c.low, mapRemove c.med e, c.high⟩ : TieredCache) = c' :=
            congrArg Prod.fst h
          have hcm := find_some_contains hm
          have hhb : mapContains c.high e = false := by
            have hcount := hinv e
            unfold TieredCache.tierCount at hcount
            rcases hhb : mapContains c.high e with _ | _
            · rfl
            · rw [hlb, hcm, hhb] at hcount
              simp at hcount
          refine Or.inr ⟨hcm, ?_⟩
          rw [← hA]
          unfold TieredCache.tierCount
          simp [hlb, hhb, contains_remove]
        · rw [demote_eq_med_ok hlb hm hc] at h
          exact Except.noConfusion (congrArg Prod.snd h)
    · rw [demote_eq_low hlb] at h
      exact Except.noConfusion (congrArg Prod.snd h)
  · intro c' er h
    rcases hl : mapFind c.low e with _ | ⟨tok, ci⟩
    · rcases hm : mapFind c.med e with _ | ⟨tok, img⟩
      · rw [promote_eq_absent hl hm] at h
        have hA : c = c' := congrArg Prod.fst h
        have hB : Except.error (ε := LunarisError) .NotFound = .error er :=
          congrArg Prod.snd h
        exact Or.inl ⟨(Except.error.inj hB).symm, hA.symm⟩
      · rw [promote_eq_med hl hm] at h
        exact Except.noConfusion (congrArg Prod.snd h)
    · rcases hd : ci.decompress with er2 | img
      · rw [promote_eq_low_err hl hd] at h
        have hA : (⟨c.capacity, mapRemove c.low e, c.med, c.high⟩ : TieredCache) = c' :=
          congrArg Prod.fst h
        have hcl := find_some_contains hl
        have hmb : mapContains c.med e = false ∧ mapContains c.high e = false := by
          have hcount := hinv e
          unfold TieredCache.tierCount at hcount
          rcases hmb : mapContains c.med e with _ | _ <;>
            rcases hhb : mapContains c.high e with _ | _
          · exact ⟨rfl, rfl⟩
          · rw [hcl, hmb, hhb] at hcount
            simp at hcount
          · rw [hcl, hmb, hhb] at hcount
            simp at hcount
          · rw [hcl, hmb, hhb] at hcount
            simp at hcount
        refine Or.inr ⟨hcl, ?_⟩
        rw [← hA]
        unfold TieredCache.tierCount
        simp [hmb.1, hmb.2, contains_remove]
      · rw [promote_eq_low_ok hl hd] at h
        exact Except.noConfusion (congrArg Prod.snd h)

/-- Claim C5 witness: the amended error behaviour at the concrete
grayscale-in-med cache, where demote's Qoi compression fails. -/
theorem promote_demote_error_state_witness :
    (LunarisError.FailedCompress = .NotFound ∧ (c5cache.demote 5).1 = c5cache) ∨
      (mapContains c5cache.med 5 = true ∧ (c5cache.demote 5).1.tierCount 5 = 0) :=
  (promote_demote_error_state c5cache 5 (atMostOne_of_bool c5cache (by decide))).1
    (c5cache.demote 5).1 .FailedCompress (by decide)

lemma demote_preserves {c : TieredCache} (e' : Nat) (hinv : c.atMostOneTier) :
    (c.demote e').1.atMostOneTier := by
  rcases hlb : mapContains c.low e' with _ | _
  · rcases hm : mapFind c.med e' with _ | ⟨tok, img⟩
    · rcases hh : mapFind c.high e' with _ | ⟨tok, tex⟩
      · rw [demote_eq_absent hlb hm hh]
        exact hinv
      · rw [demote_eq_high hlb hm hh]
        intro e
        have hcount := hinv e
        have hhc := find_some_contains hh
        unfold TieredCache.tierCount at hcount ⊢
        simp only [contains_remove, contains_insert]
        by_cases he : e = e'
        · subst he
          have hmb : mapContains c.med e = false := (find_eq_none_iff _ _).mp hm
          simp [hlb]
        · simp only [if_neg he]
          exact hcount
    · rcases hc : img.compress compressionStrategy with er2 | ci
      · rw [demote_eq_med_err hlb hm hc]
        intro e
        have hcount := hinv e
        unfold TieredCache.tierCount at hcount ⊢
        simp only [contains_remove]
        by_cases he : e = e'
        · subst he
          rcases hhb : mapContains c.high e with _ | _ <;> simp [hlb, hhb]
        · simp only [if_neg he]
          exact hcount
      · rw [demote_eq_med_ok hlb hm hc]
        intro e
        have hcount := hinv e
        have hmc := find_some_contains hm
        unfold TieredCache.tierCount at hcount ⊢
        simp only [contains_remove, contains_insert]
        by_cases he : e = e'
        · subst he
          have hhb : mapContains c.high e = false := by
            rcases hhb : mapContains c.high e with _ | _
            · rfl
            · rw [hlb, hmc, hhb] at hcount
              simp at hcount
          simp [hhb]
        · simp only [if_neg he]
          exact hcount
  · rw [demote_eq_low hlb]
    intro e
    have hcount := hinv e
    unfold TieredCache.tierCount at hcount ⊢
    simp only [contains_remove]
    by_cases he : e = e'
    · subst he
      simp
      omega
    · simp only [if_neg he]
      exact hcount

lemma promote_preserves {c : TieredCache} (e' : Nat) (hinv : c.atMostOneTier) :
    (c.promote e').1.atMostOneTier := by
  rcases hl : mapFind c.low e' with _ | ⟨tok, ci⟩
  · rcases hm : mapFind c.med e' with _ | ⟨tok, img⟩
    · rw [promote_eq_absent hl hm]
      exact hinv
    · rw [promote_eq_med hl hm]
      intro e
      have hcount := hinv e
      unfold TieredCache.tierCount at hcount ⊢
      simp only [contains_remove, contains_insert]
      by_cases he : e = e'
      · subst he
        have hlb : mapContains c.low e = false := (find_eq_none_iff _ _).mp hl
        simp [hlb]
      · simp only [if_neg he]
        exact hcount
  · rcases hd : ci.decompress with er2 | img
    · rw [promote_eq_low_err hl hd]
      intro e
      have hcount := hinv e
      unfold TieredCache.tierCount at hcount ⊢
      simp only [contains_remove]
      by_cases he : e = e'
      · subst he
        simp
        omega
      · simp only [if_neg he]
        exact hcount
    · rw [promote_eq_low_ok hl hd]
      intro e
      have hcount := hinv e
      have hlc := find_some_contains hl
      unfold TieredCache.tierCount at hcount ⊢
      simp only [contains_remove, contains_insert]
      by_cases he : e = e'
      · subst he
        have hhb : mapContains c.high e = false := by
          rcases hhb : mapContains c.high e with _ | _
          · rfl
          · rw [hlc, hhb] at hcount
            rcases hmb : mapContains c.med e with _ | _ <;> rw [hmb] at hcount <;>
              simp at hcount
        simp [hhb]
      · simp only [if_neg he]
        exact hcount

lemma insertFrame_preserves {c : TieredCache} (e' : Nat) (img : RawImage)
    (hinv : c.atMostOneTier) : (c.insertFrame e' img).atMostOneTier := by
  intro e
  have hcount := hinv e
  unfold TieredCache.tierCount at hcount ⊢
  unfold TieredCache.insertFrame
  simp only [contains_remove, contains_insert]
  by_cases he : e = e'
  · subst he
    simp
  · simp only [if_neg he]
    exact hcount

lemma updateStep_shape (c : TieredCache) :
    (c.updateStep).1 = c ∨ (∃ e, (c.updateStep).1 = (c.demote e).1) ∨
      ∃ e, (c.updateStep).1 = (c.promote e).1 := by
  simp only [TieredCache.updateStep]
  split
  · split
    · exact Or.inr (Or.inl ⟨_, rfl⟩)
    · exact Or.inl rfl
  · split
    · split
      · exact Or.inr (Or.inl ⟨_, rfl⟩)
      · exact Or.inl rfl
    · split
      · split
        · exact Or.inr (Or.inl ⟨_, rfl⟩)
        · exact Or.inl rfl
      · split
        · split
          · exact Or.inr (Or.inr ⟨_, rfl⟩)
          · exact Or.inl rfl
        · split
          · split
            · exact Or.inr (Or.inr ⟨_, rfl⟩)
            · exact Or.inl rfl
          · exact Or.inl rfl

lemma updateStep_preserves {c : TieredCache} (hinv : c.atMostOneTier) :
    (c.updateStep).1.atMostOneTier := by
  rcases updateStep_shape c with h | ⟨e, h⟩ | ⟨e, h⟩ <;> rw [h]
  · exact hinv
  · exact demote_preserves e hinv
  · exact promote_preserves e hinv

lemma update_preserves (fuel : Nat) :
    ∀ c : TieredCache, c.atMostOneTier →
      (TieredCache.update fuel c).1.atMostOneTier := by
  induction fuel with
  | zero =>
    intro c h
    simpa [TieredCache.update] using h
  | succ n ih =>
    intro c h
    have hstep : (c.updateStep).1.atMostOneTier := updateStep_preserves h
    rw [TieredCache.update]
    rcases hs : c.updateStep with ⟨c1, r⟩
    have hc1 : c1.atMostOneTier := by
      rw [hs] at hstep
      exact hstep
    rcases r with er | b
    · exact hc1
    · rcases b with _ | _
      · exact hc1
      · exact ih c1 hc1

/-- Claim C3: after any sequence of insert, promote, demote and update
operations applied to a cache satisfying the entity invariant, every
entity identifier is still present in at most one tier: each
promote/demote is a remove-from-source followed by an
insert-into-destination and never leaves the same id in two tiers. -/
theorem ops_preserve_at_most_one_tier (ops : List CacheOp) (c : TieredCache)
    (hinv : c.atMostOneTier) : (applyOps c ops).atMostOneTier := by
  induction ops generalizing c with
  | nil => exact hinv
  | cons op rest ih =>
    have hstep : (applyOp c op).atMostOneTier := by
      cases op with
      | ins e img => exact insertFrame_preserves e img hinv
      | promoteOp e => exact promote_preserves e hinv
      | demoteOp e => exact demote_preserves e hinv
      | updateOp fuel => exact update_preserves fuel c hinv
    exact ih (applyOp c op) hstep

/-- Claim C3 witness: the invariant after a concrete mixed operation
sequence on the empty (2, 2, 2) cache. -/
theorem ops_preserve_at_most_one_tier_witness :
    (applyOps emptyCache demoOps).atMostOneTier :=
  ops_preserve_at_most_one_tier demoOps emptyCache
    (atMostOne_of_bool emptyCache (by decide))

lemma foldl_max_ne_none (l : List (Nat × AccessTokenSnapshot)) :
    ∀ a : Nat × AccessTokenSnapshot,
      l.foldl
        (fun acc x =>
          match acc with
          | none => some x
          | some a => if a.2.cmpSnap x.2 = .gt then some a else some x)
        (some a) ≠ none := by
  induction l with
  | nil =>
    intro a
    simp
  | cons x t ih =>
    intro a
    simp only [List.foldl_cons]
    by_cases hgt : a.2.cmpSnap x.2 = .gt
    · rw [if_pos hgt]
      exact ih a
    · rw [if_neg hgt]
      exact ih x

lemma foldl_min_ne_none (l : List (Nat × AccessTokenSnapshot)) :
    ∀ a : Nat × AccessTokenSnapshot,
      l.foldl
        (fun acc x =>
          match acc with
          | none => some x
          | some a => if a.2.cmpSnap x.2 = .gt then some x else some a)
        (some a) ≠ none := by
  induction l with
  | nil =>
    intro a
    simp
  | cons x t ih =>
    intro a
    simp only [List.foldl_cons]
    by_cases hgt : a.2.cmpSnap x.2 = .gt
    · rw [if_pos hgt]
      exact ih x
    · rw [if_neg hgt]
      exact ih a

lemma maxBySnd_ne_none {l : List (Nat × AccessTokenSnapshot)} (h : l ≠ []) :
    maxBySnd l ≠ none := by
  cases l with
  | nil => exact absurd rfl h
  | cons p t => exact foldl_max_ne_none t p

lemma minBySnd_ne_none {l : List (Nat × AccessTokenSnapshot)} (h : l ≠ []) :
    minBySnd l ≠ none := by
  cases l with
  | nil => exact absurd rfl h
  | cons p t => exact foldl_min_ne_none t p

lemma map_ok_false_absurd {x : Except LunarisError Unit}
    (h : Except.map (fun _ => true) x = .ok false) : False := by
  cases x <;> simp [Except.map] at h

lemma tierSnapshot_ne_nil {α : Type} {m : TierMap (AccessToken × α)}
    (h : m ≠ []) : tierSnapshot m ≠ [] := by
  intro hc
  exact h (List.map_eq_nil_iff.mp hc)

lemma updateStep_ok_false {c c1 : TieredCache}
    (h : c.updateStep = (c1, .ok false)) :
    c1 = c ∧ c.low.length ≤ c.capacity.1 ∧ c.med.length ≤ c.capacity.2.1 ∧
      c.high.length ≤ c.capacity.2.2 := by
  have hne : ∀ {α : Type} (m : TierMap (AccessToken × α)) (cap : Nat),
      cap < m.length → tierSnapshot m ≠ [] := by
    intro α m cap hcap
    apply tierSnapshot_ne_nil
    intro hm
    rw [hm] at hcap
    simp at hcap
  simp only [TieredCache.updateStep] at h
  split at h
  · rename_i hcap
    split at h
    · exact absurd (congrArg Prod.snd h) fun hx => map_ok_false_absurd hx
    · rename_i hnone
      exact absurd hnone (maxBySnd_ne_none (hne c.high _ hcap))
  · rename_i hcap1
    split at h
    · rename_i hcap
      split at h
      · exact absurd (congrArg Prod.snd h) fun hx => map_ok_false_absurd hx
      · rename_i hnone
        exact absurd hnone (maxBySnd_ne_none (hne c.med _ hcap))
    · rename_i hcap2
      split at h
      · rename_i hcap
        split at h
        · exact absurd (congrArg Prod.snd h) fun hx => map_ok_false_absurd hx
        · rename_i hnone
          exact absurd hnone (maxBySnd_ne_none (hne c.low _ hcap))
      · rename_i hcap3
        have hcaps : c.low.length ≤ c.capacity.1 ∧ c.med.length ≤ c.capacity.2.1 ∧
            c.high.length ≤ c.capacity.2.2 := by
          exact ⟨Nat.le_of_not_lt hcap3, Nat.le_of_not_lt hcap2, Nat.le_of_not_lt hcap1⟩
        split at h
        · split at h
          · exact absurd (congrArg Prod.snd h) fun hx => map_ok_false_absurd hx
          · exact ⟨(congrArg Prod.fst h).symm, hcaps⟩
        · split at h
          · split at h
            · exact absurd (congrArg Prod.snd h) fun hx => map_ok_false_absurd hx
            · exact ⟨(congrArg Prod.fst h).symm, hcaps⟩
          · exact ⟨(congrArg Prod.fst h).symm, hcaps⟩

/-- Claim C2, counterexample: capacities (1, 1, 1) with three entities
freshly inserted into med; update() run to convergence leaves one entity
in high and one in med, but the low tier is empty and the third entity
(id 1) is in no tier at all — it was evicted by the low-overflow
demotion rather than left in the cache in low. -/
theorem update_convergence_evicts :
    (TieredCache.update 10 demoCache).2 = .converged ∧
      mapContains demoCache.med 1 = true ∧
      (TieredCache.update 10 demoCache).1.low = [] ∧
      (TieredCache.update 10 demoCache).1.tierCount 1 = 0 := by
  decide

/-- Claim C2, amended: whenever update() converges (returns after a full
pass with no change), no tier holds more entries than its configured
capacity — overflow is drained before any promotion because the priority
rules are evaluated top to bottom.  In the (1, 1, 1) scenario with three
entities in med, convergence leaves exactly one entity in high and one
in med; the low tier ends empty because the low-overflow rule demotes
(and thereby evicts) the excess entity from the cache instead of keeping
it in low. -/
theorem update_converged_within_capacity (fuel : Nat) :
    ∀ c c' : TieredCache, TieredCache.update fuel c = (c', .converged) →
      c'.low.length ≤ c'.capacity.1 ∧ c'.med.length ≤ c'.capacity.2.1 ∧
        c'.high.length ≤ c'.capacity.2.2 := by
  induction fuel with
  | zero =>
    intro c c' h
    rw [TieredCache.update] at h
    exact absurd (congrArg Prod.snd h) (by simp)
  | succ n ih =>
    intro c c' h
    rw [TieredCache.update] at h
    rcases hs : c.updateStep with ⟨c1, r⟩
    rw [hs] at h
    rcases r with er | b
    · exact absurd (congrArg Prod.snd h) (by simp)
    · rcases b with _ | _
      · have hc' : c1 = c' := congrArg Prod.fst h
        obtain ⟨hfix, hcaps⟩ := updateStep_ok_false hs
        rw [← hc', hfix]
        exact hcaps
      · exact ih c1 c' h

/-- Claim C2 witness: the amended capacity bound at the concrete
(1, 1, 1) three-in-med cache, whose update run converges within 10
iterations. -/
theorem update_converged_within_capacity_witness :
    (TieredCache.update 10 demoCache).1.low.length ≤
        (TieredCache.update 10 demoCache).1.capacity.1 ∧
      (TieredCache.update 10 demoCache).1.med.length ≤
        (TieredCache.update 10 demoCache).1.capacity.2.1 ∧
      (TieredCache.update 10 demoCache).1.high.length ≤
        (TieredCache.update 10 demoCache).1.capacity.2.2 :=
  update_converged_within_capacity 10 demoCache
    (TieredCache.update 10 demoCache).1 (by decide)

lemma from_bytes_self (img : RawImage)
    (hlen : img.data.length = img.width * img.height * img.format.bytes_per_pixel)
    (hfit : img.width * img.height * img.format.bytes_per_pixel < 2 ^ 64) :
    RawImage.from_bytes img.format img.width img.height img.data = .ok img := by
  simp only [RawImage.from_bytes]
  rw [Nat.mod_eq_of_lt hfit, if_neg (by simp [hlen])]

lemma decompress_exact {ci : CompressedImage} (img : RawImage)
    (hw : ci.width = img.width) (hh : ci.height = img.height)
    (hf : ci.format = img.format) (hd : decodePayload ci = .ok img.data)
    (hlen : img.data.length = img.width * img.height * img.format.bytes_per_pixel)
    (hfit : img.width * img.height * img.format.bytes_per_pixel < 2 ^ 64) :
    ci.decompress = .ok img := by
  rw [decompress_eq_of_decode_ok hd, hw, hh, hf, Nat.mod_eq_of_lt hfit,
    if_neg (by simp [hlen])]
  exact from_bytes_self img hlen hfit

lemma qoiEncode_ok {d : List Nat} {w h : Nat}
    (hlen : d.length = w * h * 4) (hw : 0 < w) (hh : 0 < h)
    (hcap : w * h ≤ qoiPixelsMax) :
    qoiEncode d w h = .ok (.qoiStream ⟨w, h, 4⟩ d) := by
  have hpos : 0 < w * h := Nat.mul_pos hw hh
  have hch : d.length / (w * h) = 4 := by
    rw [hlen]
    exact Nat.mul_div_cancel_left 4 hpos
  simp only [qoiEncode]
  rw [hch, if_neg, if_pos]
  · exact ⟨Or.inr rfl, hlen⟩
  · intro hcontra
    rcases hcontra with h1 | h1 | h1 <;> omega

/-- Claim C7, counterexample: the 1 by 1 Gray8 image is a valid RawImage
(its buffer length matches its geometry and format), yet compress with
the Qoi strategy fails — the qoi codec encodes only 3- or 4-channel
data, so the claimed success of every strategy on every valid buffer is
false. -/
theorem qoi_gray8_compress_fails :
    gimg.data.length = gimg.width * gimg.height * gimg.format.bytes_per_pixel ∧
      gimg.compress .Qoi = .error .FailedCompress := by
  decide

/-- Claim C7, amended: for every valid RawImage (buffer length matching
geometry and format, the product fitting in usize), compress followed by
decompress reproduces the image byte-for-byte with the same width,
height and format for the Raw, Lz4 and Zstd (any level) strategies; the
Qoi strategy round-trips exactly on 4-byte-per-pixel formats with
nonzero dimensions within the qoi pixel cap, and fails to compress
otherwise (for example on any Gray8 buffer). -/
theorem compress_roundtrip (img : RawImage)
    (hlen : img.data.length = img.width * img.height * img.format.bytes_per_pixel)
    (hfit : img.width * img.height * img.format.bytes_per_pixel < 2 ^ 64) :
    ((img.compress .Raw).bind CompressedImage.decompress = .ok img ∧
      (img.compress .Lz4).bind CompressedImage.decompress = .ok img ∧
      ∀ lvl : Nat,
        (img.compress (.Zstd lvl)).bind CompressedImage.decompress = .ok img) ∧
    (img.format.bytes_per_pixel = 4 → 0 < img.width → 0 < img.height →
      img.width * img.height ≤ qoiPixelsMax →
      (img.compress .Qoi).bind CompressedImage.decompress = .ok img) := by
  refine ⟨⟨?_, ?_, fun lvl => ?_⟩, fun hbpp hw hh hcap => ?_⟩
  · show (CompressedImage.mk img.width img.height img.format .Raw
      (.rawBytes img.data)).decompress = .ok img
    exact decompress_exact img rfl rfl rfl rfl hlen hfit
  · show (CompressedImage.mk img.width img.height img.format .Lz4
      (.lz4Block img.data)).decompress = .ok img
    exact decompress_exact img rfl rfl rfl rfl hlen hfit
  · show (CompressedImage.mk img.width img.height img.format (.Zstd lvl)
      (.zstdStream img.data)).decompress = .ok img
    exact decompress_exact img rfl rfl rfl rfl hlen hfit
  · have henc : qoiEncode img.data img.width img.height =
        .ok (.qoiStream ⟨img.width, img.height, 4⟩ img.data) :=
      qoiEncode_ok (by rw [hlen, hbpp]) hw hh hcap
    have hcomp : img.compress .Qoi = .ok (CompressedImage.mk img.width img.height
        img.format .Qoi (.qoiStream ⟨img.width, img.height, 4⟩ img.data)) := by
      simp only [RawImage.compress, henc]
    rw [hcomp]
    show (CompressedImage.mk img.width img.height img.format .Qoi
      (.qoiStream ⟨img.width, img.height, 4⟩ img.data)).decompress = .ok img
    apply decompress_exact img rfl rfl rfl _ hlen hfit
    simp only [decodePayload]
    rw [if_neg (by simp), if_neg (by simp [hbpp])]

/-- Claim C7 witness: the amended round-trip at the concrete 1 by 1
RGBA image for the Raw, Lz4, Zstd level 3 and Qoi strategies. -/
theorem compress_roundtrip_witness :
    (img1.compress .Raw).bind CompressedImage.decompress = .ok img1 ∧
      (img1.compress .Lz4).bind CompressedImage.decompress = .ok img1 ∧
      (img1.compress (.Zstd 3)).bind CompressedImage.decompress = .ok img1 ∧
      (img1.compress .Qoi).bind CompressedImage.decompress = .ok img1 := by
  have h := compress_roundtrip img1 (by decide) (by decide)
  exact ⟨h.1.1, h.1.2.1, h.1.2.2 3,
    h.2 (by decide) (by decide) (by decide) (by decide)⟩

lemma from_bytes_ok_invariant {f : PixelFormat} {w h : Nat} {b : List Nat}
    {img : RawImage} (hok : RawImage.from_bytes f w h b = .ok img) :
    img = ⟨w, h, f, b⟩ ∧ img.lenInvariant := by
  simp only [RawImage.from_bytes] at hok
  split at hok
  · exact Except.noConfusion hok
  · rename_i hlen
    rw [not_not] at hlen
    have himg := (Except.ok.inj hok).symm
    refine ⟨himg, ?_⟩
    rw [himg]
    exact hlen

lemma length_flatMap_const {β : Type} (n k : Nat) (g : Nat → List β)
    (hg : ∀ y, (g y).length = k) : ((List.range n).flatMap g).length = n * k := by
  rw [List.length_flatMap]
  have hmap : (List.range n).map (List.length ∘ g) = List.replicate n k := by
    rw [show (List.length ∘ g) = fun _ => k from funext fun y => hg y,
      List.map_const', List.length_range]
  rw [hmap, List.sum_replicate, smul_eq_mul]

lemma size_down_length (img : RawImage) :
    img.size_down.data.length =
      img.size_down.width * img.size_down.height * img.format.bytes_per_pixel := by
  simp only [RawImage.size_down]
  rw [length_flatMap_const _
    ((max img.width 1 + 1) / 2 * img.format.bytes_per_pixel) _ fun y => ?_]
  · ring
  · rw [length_flatMap_const _ img.format.bytes_per_pixel _ fun x => ?_]
    rw [List.length_map, List.length_range]

/-- Claim C9, counterexample: the expected byte count is computed in
usize arithmetic, which wraps: for the declared geometry 2^31 by 2^31 in
a 4-byte format the product is 2^64, the wrapped expectation is 0, and
from_bytes accepts an empty byte buffer even though its length does not
equal width times height times bytes-per-pixel. -/
theorem from_bytes_wrap_accepts :
    RawImage.from_bytes .Rgba8Unorm 2147483648 2147483648 [] =
        .ok ⟨2147483648, 2147483648, .Rgba8Unorm, []⟩ ∧
      ([] : List Nat).length ≠
        2147483648 * 2147483648 * PixelFormat.bytes_per_pixel .Rgba8Unorm := by
  constructor
  · rfl
  · decide

/-- Claim C9, amended: from_bytes fails with InvalidArgument exactly
when the byte length differs from width times height times
bytes-per-pixel reduced mod 2^64 (the usize product; the two agree for
every geometry whose product fits in usize), and otherwise returns the
image built from exactly those fields; every image produced by
from_bytes, zeroed, overlay, size_down (within the usize range) or
decompress satisfies the buffer-length invariant. -/
theorem raw_image_construction_invariant :
    (∀ (f : PixelFormat) (w h : Nat) (b : List Nat),
      RawImage.from_bytes f w h b = .error .InvalidArgument ↔
        b.length ≠ w * h * f.bytes_per_pixel % 2 ^ 64) ∧
    (∀ (f : PixelFormat) (w h : Nat) (b : List Nat) (img : RawImage),
      RawImage.from_bytes f w h b = .ok img → img = ⟨w, h, f, b⟩ ∧ img.lenInvariant) ∧
    (∀ (f : PixelFormat) (w h : Nat), (RawImage.zeroed f w h).lenInvariant) ∧
    (∀ a b img : RawImage, a.overlay b = .ok img → img.lenInvariant) ∧
    (∀ img : RawImage,
      img.size_down.width * img.size_down.height * img.format.bytes_per_pixel < 2 ^ 64 →
        img.size_down.lenInvariant) ∧
    (∀ (ci : CompressedImage) (img : RawImage),
      ci.decompress = .ok img → img.lenInvariant) := by
  have hfb : ∀ (f : PixelFormat) (w h : Nat) (b : List Nat) (img : RawImage),
      RawImage.from_bytes f w h b = .ok img → img = ⟨w, h, f, b⟩ ∧ img.lenInvariant :=
    fun f w h b img hok => from_bytes_ok_invariant hok
  refine ⟨fun f w h b => ?_, hfb, fun f w h => ?_, fun a b img hov => ?_,
    fun img hfit => ?_, fun ci img hdc => ?_⟩
  · simp only [RawImage.from_bytes]
    by_cases hc : b.length ≠ w * h * f.bytes_per_pixel % 2 ^ 64
    · rw [if_pos hc]
      exact ⟨fun _ => hc, fun _ => rfl⟩
    · rw [if_neg hc]
      exact ⟨fun hcontra => Except.noConfusion hcontra, fun hcontra => absurd hcontra hc⟩
  · simp only [RawImage.lenInvariant, RawImage.as_bytes, RawImage.zeroed,
      List.length_replicate]
  · rcases he : a.ensure_geometry b with er | u
    · simp only [RawImage.overlay, he] at hov
      exact Except.noConfusion hov
    · simp only [RawImage.overlay, he] at hov
      exact (from_bytes_ok_invariant hov).2
  · rw [RawImage.lenInvariant, RawImage.as_bytes, Nat.mod_eq_of_lt]
    · exact size_down_length img
    · exact hfit
  · rcases hd : decodePayload ci with er | data
    · rw [decompress_eq_of_decode_err hd] at hdc
      exact Except.noConfusion hdc
    · rw [decompress_eq_of_decode_ok hd] at hdc
      split at hdc
      · exact Except.noConfusion hdc
      · exact (from_bytes_ok_invariant hdc).2

/-- Claim C9 witness: the amended construction invariant at concrete
inputs — a 3 by 2 zeroed Gray8 image, and the image decompressed from
the concrete store-as-is payload. -/
theorem raw_image_construction_invariant_witness :
    (RawImage.zeroed .Gray8 3 2).lenInvariant ∧
      (⟨1, 1, .Gray8, [7]⟩ : RawImage).lenInvariant :=
  ⟨raw_image_construction_invariant.2.2.1 .Gray8 3 2,
    raw_image_construction_invariant.2.2.2.2.2 rawci ⟨1, 1, .Gray8, [7]⟩ (by decide)⟩

lemma getD_lt_256 {l : List Nat} (hb : ∀ b ∈ l, b < 256) :
    ∀ i : Nat, l.getD i 0 < 256 := by
  induction l with
  | nil =>
    intro i
    simp [List.getD]
  | cons a t ih =>
    intro i
    cases i with
    | zero => exact hb a (List.mem_cons_self a t)
    | succ j =>
      exact ih (fun b hbmem => hb b (List.mem_cons_of_mem a hbmem)) j

lemma sum_map_le {β : Type} (l : List β) (f : β → Nat)
    (hf : ∀ p ∈ l, f p ≤ 255) : (l.map f).sum ≤ 255 * l.length := by
  induction l with
  | nil => simp
  | cons a t ih =>
    simp only [List.map_cons, List.sum_cons, List.length_cons]
    have h1 := hf a (List.mem_cons_self a t)
    have h2 := ih fun p hp => hf p (List.mem_cons_of_mem a hp)
    have h3 : 255 * (t.length + 1) = 255 * t.length + 255 := by ring
    omega

lemma avg_mod {S k : Nat} (hS : S ≤ 255 * k) (hk : 0 < k) :
    S / k % 256 = S / k := by
  have hle : S / k ≤ 255 := by
    have h : S / k ≤ 255 * k / k := Nat.div_le_div_right hS
    rwa [Nat.mul_div_cancel 255 hk] at h
  exact Nat.mod_eq_of_lt (by omega)

lemma idx_lt {w h sy sx M : Nat} (hsy : sy < h) (hsx : sx < w)
    (hfit : w * h ≤ M) : sy * w + sx < M := by
  have h1 : sy * w + sx < (sy + 1) * w := by
    have : (sy + 1) * w = sy * w + w := by ring
    omega
  have h2 : (sy + 1) * w ≤ h * w := Nat.mul_le_mul_right w hsy
  have h3 : h * w = w * h := Nat.mul_comm h w
  omega

lemma flatMap_congr {β : Type} (l : List Nat) (f g : Nat → List β)
    (hfg : ∀ y ∈ l, f y = g y) : l.flatMap f = l.flatMap g := by
  induction l with
  | nil => rfl
  | cons a t ih =>
    simp only [List.flatMap_cons]
    rw [hfg a (List.mem_cons_self a t), ih fun y hy => hfg y (List.mem_cons_of_mem a hy)]

lemma sizeDownContrib_eq (img : RawImage) (y x c : Nat)
    (hfit : img.width * img.height ≤ u32Mod)
    (hy0 : y * 2 < img.height) (hx0 : x * 2 < img.width) :
    sizeDownContrib img y x c =
      (((neighborPixels img y x).map fun p =>
          img.data.getD ((p.1 * img.width + p.2) * img.format.bytes_per_pixel + c) 0).sum,
        (neighborPixels img y x).length) := by
  have hm00 : (y * 2 * img.width + x * 2) % u32Mod = y * 2 * img.width + x * 2 :=
    Nat.mod_eq_of_lt (idx_lt hy0 hx0 hfit)
  by_cases hy1 : y * 2 + 1 < img.height <;> by_cases hx1 : x * 2 + 1 < img.width
  · have hm01 : (y * 2 * img.width + (x * 2 + 1)) % u32Mod =
        y * 2 * img.width + (x * 2 + 1) := Nat.mod_eq_of_lt (idx_lt hy0 hx1 hfit)
    have hm10 : ((y * 2 + 1) * img.width + x * 2) % u32Mod =
        (y * 2 + 1) * img.width + x * 2 := Nat.mod_eq_of_lt (idx_lt hy1 hx0 hfit)
    have hm11 : ((y * 2 + 1) * img.width + (x * 2 + 1)) % u32Mod =
        (y * 2 + 1) * img.width + (x * 2 + 1) := Nat.mod_eq_of_lt (idx_lt hy1 hx1 hfit)
    simp [sizeDownContrib, sizeDownStep, neighborPixels,
      Nat.not_le.mpr hy0, Nat.not_le.mpr hx0, Nat.not_le.mpr hy1, Nat.not_le.mpr hx1,
      hy0, hx0, hy1, hx1, hm00, hm01, hm10, hm11]
    omega
  · have hm10 : ((y * 2 + 1) * img.width + x * 2) % u32Mod =
        (y * 2 + 1) * img.width + x * 2 := Nat.mod_eq_of_lt (idx_lt hy1 hx0 hfit)
    simp [sizeDownContrib, sizeDownStep, neighborPixels,
      Nat.not_le.mpr hy0, Nat.not_le.mpr hx0, Nat.not_le.mpr hy1, Nat.not_lt.mp hx1,
      hy0, hx0, hy1, hx1, hm00, hm10]
    try omega
  · have hm01 : (y * 2 * img.width + (x * 2 + 1)) % u32Mod =
        y * 2 * img.width + (x * 2 + 1) := Nat.mod_eq_of_lt (idx_lt hy0 hx1 hfit)
    simp [sizeDownContrib, sizeDownStep, neighborPixels,
      Nat.not_le.mpr hy0, Nat.not_le.mpr hx0, Nat.not_lt.mp hy1, Nat.not_le.mpr hx1,
      hy0, hx0, hy1, hx1, hm00, hm01]
    try omega
  · simp [sizeDownContrib, sizeDownStep, neighborPixels,
      Nat.not_le.mpr hy0, Nat.not_le.mpr hx0, Nat.not_lt.mp hy1, Nat.not_lt.mp hx1,
      hy0, hx0, hy1, hx1, hm00]

lemma neighborPixels_length_pos (img : RawImage) (y x : Nat)
    (hy0 : y * 2 < img.height) (hx0 : x * 2 < img.width) :
    0 < (neighborPixels img y x).length := by
  have hmem : (y * 2, x * 2) ∈ neighborPixels img y x := by
    apply List.mem_filter.mpr
    constructor
    · apply List.mem_map.mpr
      exact ⟨(0, 0), by simp, by simp⟩
    · simpa using ⟨hy0, hx0⟩
  exact List.length_pos.mpr (List.ne_nil_of_mem hmem)

lemma sizeDownByte_eq_spec (img : RawImage) (y x c : Nat)
    (hfit : img.width * img.height ≤ u32Mod)
    (hbytes : ∀ b ∈ img.data, b < 256)
    (hy0 : y * 2 < img.height) (hx0 : x * 2 < img.width) :
    sizeDownByte img y x c = specByteVal img y x c := by
  have hA := sizeDownContrib_eq img y x c hfit hy0 hx0
  have hpos := neighborPixels_length_pos img y x hy0 hx0
  have hsum : ((neighborPixels img y x).map fun p =>
      img.data.getD ((p.1 * img.width + p.2) * img.format.bytes_per_pixel + c) 0).sum ≤
        255 * (neighborPixels img y x).length :=
    sum_map_le _ _ fun p _ => Nat.le_of_lt_succ (getD_lt_256 hbytes _)
  simp only [sizeDownByte, hA, specByteVal]
  rw [Nat.max_eq_left hpos]
  exact avg_mod hsum hpos

/-- Claim C8, counterexample: size_down of a zero-area image does not
have the claimed geometry: on a 0 by 0 Gray8 buffer the output is 1 by 1
(the source clamps each dimension to at least one before halving), while
ceil(0 / 2) is 0. -/
theorem size_down_zero_geometry :
    (RawImage.zeroed .Gray8 0 0).size_down.width = 1 ∧
      (RawImage.zeroed .Gray8 0 0).size_down.height = 1 ∧
      (0 + 1) / 2 = 0 := by
  decide

/-- Claim C8, amended: for every RawImage with byte-valued data, both
dimensions at least 1 and total pixel count within u32, size_down
produces exactly the claim's buffer: ceil(width/2) by ceil(height/2) in
the same format, each output pixel channel the unweighted integer
average of the up-to-4 contributing source pixels, edge/odd-dimension
pixels averaged over only the source pixels that exist, with the real
contributing count (at least 1) as divisor and no out-of-bounds source
read.  Zero-width or zero-height images are instead clamped to a 1 by 1
zero output. -/
theorem size_down_box_average (img : RawImage)
    (hw : 1 ≤ img.width) (hh : 1 ≤ img.height)
    (hfit : img.width * img.height ≤ u32Mod)
    (hbytes : ∀ b ∈ img.data, b < 256) :
    img.size_down = sizeDownSpec img := by
  have hnw : max img.width 1 = img.width := Nat.max_eq_left hw
  have hnh : max img.height 1 = img.height := Nat.max_eq_left hh
  simp only [RawImage.size_down, sizeDownSpec, hnw, hnh, RawImage.mk.injEq]
  refine ⟨trivial, trivial, trivial, ?_⟩
  apply flatMap_congr
  intro y hy
  rw [List.mem_range] at hy
  apply flatMap_congr
  intro x hx
  rw [List.mem_range] at hx
  apply List.map_congr_left
  intro c _
  have hy0 : y * 2 < img.height := by omega
  have hx0 : x * 2 < img.width := by omega
  exact sizeDownByte_eq_spec img y x c hfit hbytes hy0 hx0

/-- Claim C8 witness: the amended size_down description at the spec's
3 by 3 Gray8 example buffer. -/
theorem size_down_box_average_witness : g33.size_down = sizeDownSpec g33 :=
  size_down_box_average g33 (by decide) (by decide) (by decide) (by decide)

end Lunaris
